import Mathlib

/-!
Verification of the dynamic-batching inference scheduler of `src/clip_server.py`
(class `CLIPEmbeddingServer`).

The embedding is shallow:

* `BatchRequest` mirrors the Python dataclass `BatchRequest` (`data`,
  `response_queue`, `request_type`).  The per-request one-shot response queue is
  identified by a natural number `rid`; the messages put on the queues by one
  dispatch are recorded as an ordered list of `(rid, message)` pairs.
* `ResultMsg` mirrors the dictionaries `{"success": True, "embedding": v}` and
  `{"success": False, "error": e}` that `_process_batch` puts on response queues.
* The two external embedding calls `_embed_images_batch` / `_embed_texts_batch`
  are parameters of type `List α → Except String (List β)`: `.error e` models the
  call raising an exception whose description is `e`.
* `processBatchRun` mirrors the control flow of `CLIPEmbeddingServer._process_batch`
  (lines 105-132) exactly: one `try` around both kind-partitions, image partition
  first, and an `except` that puts a failure message on the queue of every request
  of the whole batch.  It returns the list of embedding-function invocations made
  and the ordered list of queue puts performed.
* `collectLoop` / `formBatch` mirror the batch-formation loop of
  `CLIPEmbeddingServer._process_batches` (lines 77-98) under a zero-processing-time
  clock: the environment is a list of `(arrival time, request)` pairs, and
  `asyncio.wait_for(queue.get(), remaining)` yields the next arrival when its time
  is strictly before the fixed deadline, and times out otherwise.
* `processBatchesRun` mirrors the `while True / except CancelledError: break /
  except Exception: log` skeleton of `_process_batches` (lines 74-103).
* `submitRequest` / `awaitResult` mirror `embed_image_async` / `embed_text_async`
  (lines 154-178): enqueue one request, then read the first message from the
  one-shot response queue, returning the embedding on success and raising on
  failure.
-/

namespace ClipServer

/-- The `request_type` field of `BatchRequest`: the string `'image'` or `'text'`. -/
inductive RKind : Type where
  | image : RKind
  | text : RKind
deriving DecidableEq, Repr

/-- Mirror of the Python dataclass `BatchRequest` (lines 26-32).  The field
`rid` identifies the request's private `response_queue`. -/
structure BatchRequest (α : Type) : Type where
  data : α
  rid : Nat
  request_type : RKind
deriving DecidableEq, Repr

/-- Mirror of the result dictionaries put on a response queue by
`_process_batch`: `{"success": True, "embedding": v}` or
`{"success": False, "error": e}`. -/
inductive ResultMsg (β : Type) : Type where
  | success (v : β) : ResultMsg β
  | failure (e : String) : ResultMsg β
deriving DecidableEq, Repr

/-- `image_requests = [r for r in batch_requests if r.request_type == "image"]`
(line 109). -/
def imageRequests (batch : List (BatchRequest α)) : List (BatchRequest α) :=
  batch.filter fun r => decide (r.request_type = RKind.image)

/-- `text_requests = [r for r in batch_requests if r.request_type == "text"]`
(line 110). -/
def textRequests (batch : List (BatchRequest α)) : List (BatchRequest α) :=
  batch.filter fun r => decide (r.request_type = RKind.text)

/-- Mirror of `CLIPEmbeddingServer._process_batch` (lines 105-132).

Returns the pair `(calls, puts)`: `calls` is the ordered list of invocations of
the external embedding functions (kind and payload list), `puts` the ordered
list of `(rid, message)` queue writes.  The control flow is the source's:
the image partition is embedded and its successes are delivered first; then the
text partition; a raise anywhere inside the `try` jumps to the single `except`
handler, which puts `{"success": False, "error": str(e)}` on the queue of
every request of the whole batch (lines 128-132), after any puts already made. -/
def processBatchRun (eI eT : List α → Except String (List β))
    (batch : List (BatchRequest α)) :
    List (RKind × List α) × List (Nat × ResultMsg β) :=
  if (imageRequests batch).isEmpty then
    if (textRequests batch).isEmpty then
      ([], [])
    else
      match eT ((textRequests batch).map (·.data)) with
      | .error e =>
          ([(RKind.text, (textRequests batch).map (·.data))],
           batch.map fun r => (r.rid, ResultMsg.failure e))
      | .ok embs =>
          ([(RKind.text, (textRequests batch).map (·.data))],
           ((textRequests batch).zip embs).map fun p => (p.1.rid, ResultMsg.success p.2))
  else
    match eI ((imageRequests batch).map (·.data)) with
    | .error e =>
        ([(RKind.image, (imageRequests batch).map (·.data))],
         batch.map fun r => (r.rid, ResultMsg.failure e))
    | .ok embsI =>
        if (textRequests batch).isEmpty then
          ([(RKind.image, (imageRequests batch).map (·.data))],
           ((imageRequests batch).zip embsI).map fun p => (p.1.rid, ResultMsg.success p.2))
        else
          match eT ((textRequests batch).map (·.data)) with
          | .error e =>
              ([(RKind.image, (imageRequests batch).map (·.data)),
                (RKind.text, (textRequests batch).map (·.data))],
               (((imageRequests batch).zip embsI).map fun p => (p.1.rid, ResultMsg.success p.2))
                 ++ batch.map fun r => (r.rid, ResultMsg.failure e))
          | .ok embsT =>
              ([(RKind.image, (imageRequests batch).map (·.data)),
                (RKind.text, (textRequests batch).map (·.data))],
               (((imageRequests batch).zip embsI).map fun p => (p.1.rid, ResultMsg.success p.2))
                 ++ ((textRequests batch).zip embsT).map fun p => (p.1.rid, ResultMsg.success p.2))

/-- The queue writes performed by one `_process_batch` dispatch. -/
def processBatch (eI eT : List α → Except String (List β))
    (batch : List (BatchRequest α)) : List (Nat × ResultMsg β) :=
  (processBatchRun eI eT batch).2

/-- The embedding-function invocations performed by one `_process_batch` dispatch. -/
def processBatchCalls (eI eT : List α → Except String (List β))
    (batch : List (BatchRequest α)) : List (RKind × List α) :=
  (processBatchRun eI eT batch).1

/-- The content of the response queue identified by `rid` after the recorded
list of puts: the messages written to that queue, in order. -/
def msgsFor (rid : Nat) (puts : List (Nat × ResultMsg β)) : List (ResultMsg β) :=
  (puts.filter fun p => p.1 == rid).map Prod.snd

/-- The contract of §4.3 for an embedding function: when the call succeeds it
returns exactly one vector per input, index-aligned. -/
def returnsAligned (f : List α → Except String (List β)) : Prop :=
  ∀ xs ys, f xs = .ok ys → ys.length = xs.length

/-- Mirror of the collection loop of `_process_batches` (lines 86-95) under a
zero-processing-time clock.

`arrivals` is the stream of pending `(arrival time, request)` pairs the
request queue will yield next, in queue order; `now` is the current clock value,
`deadline` the fixed value computed at line 84.  One iteration checks
`len(batch_requests) < max_batch_size and time() < deadline` (line 86; the
`remaining_time <= 0` re-check of lines 88-90 reads the same model clock), then
awaits `wait_for(queue.get(), remaining_time)` (line 92): the next arrival is
returned if it happens strictly before the deadline — the clock advancing to the
arrival time if it had to wait — and otherwise `TimeoutError` breaks the loop
(lines 94-95).  An exhausted stream means no further request ever arrives, which
the wait also answers with `TimeoutError`. -/
def collectLoop (maxB deadline : Nat) :
    Nat → List (BatchRequest α) → List (Nat × BatchRequest α) → List (BatchRequest α)
  | _, batch, [] => batch
  | now, batch, (t, r) :: rest =>
    if batch.length < maxB ∧ now < deadline then
      if t < deadline then
        collectLoop maxB deadline (max now t) (batch ++ [r]) rest
      else
        batch
    else
      batch

/-- Mirror of one full formation cycle of `_process_batches` (lines 77-95):
`first_request = await queue.get()` at time `t0`, `batch_requests = [first_request]`
(line 80), `deadline = t0 + timeout` (lines 83-84), then the collection loop. -/
def formBatch (maxB timeout t0 : Nat) (r0 : BatchRequest α)
    (arrivals : List (Nat × BatchRequest α)) : List (BatchRequest α) :=
  collectLoop maxB (t0 + timeout) t0 [r0] arrivals

/-- The outcome of one iteration of the `while True` loop of `_process_batches`
(lines 74-103): a batch was formed and processed normally, the task received the
cooperative cancellation signal (`asyncio.CancelledError`), or some other
exception `e` was raised during the cycle. -/
inductive CycleEvent (α : Type) : Type where
  | formed (batch : List (BatchRequest α)) : CycleEvent α
  | cancelled : CycleEvent α
  | failed (e : String) : CycleEvent α
deriving DecidableEq, Repr

/-- Whether the `while True` loop of `_process_batches` runs another iteration
after the given outcome: `except asyncio.CancelledError: break` (lines 100-101)
stops it, `except Exception as e: LOGGER.error(...)` (lines 102-103) logs and
continues, a normal cycle continues. -/
def loopContinues : CycleEvent α → Bool
  | CycleEvent.cancelled => false
  | _ => true

/-- The iterations the `while True` loop of `_process_batches` actually executes
out of a stream of cycle outcomes: everything up to (excluding) the first
cancellation. -/
def processBatchesRun (events : List (CycleEvent α)) : List (CycleEvent α) :=
  events.takeWhile loopContinues

/-- Mirror of the enqueue step of `embed_image_async` / `embed_text_async`
(lines 156-159 and 169-172): build one `BatchRequest` with a fresh response
queue `rid` and put it at the tail of the FIFO request queue. -/
def submitRequest (queue : List (BatchRequest α)) (k : RKind) (p : α) (rid : Nat) :
    List (BatchRequest α) :=
  queue ++ [⟨p, rid, k⟩]

/-- Mirror of the completion step of `embed_image_async` / `embed_text_async`
(lines 160-165 and 173-178): `result = await response_queue.get()` reads the
first message ever put on the one-shot response queue, suspending forever if
none is put (`none`); `result["embedding"]` is returned on success and
`Exception(result["error"])` is raised (`.error`) on failure. -/
def awaitResult : List (ResultMsg β) → Option (Except String β)
  | [] => none
  | ResultMsg.success v :: _ => some (Except.ok v)
  | ResultMsg.failure e :: _ => some (Except.error e)

end ClipServer

namespace ClipServer

variable {α β : Type}

theorem mem_imageRequests {batch : List (BatchRequest α)} {r : BatchRequest α} :
    r ∈ imageRequests batch ↔ r ∈ batch ∧ r.request_type = RKind.image := by
  simp [imageRequests, List.mem_filter]

theorem mem_textRequests {batch : List (BatchRequest α)} {r : BatchRequest α} :
    r ∈ textRequests batch ↔ r ∈ batch ∧ r.request_type = RKind.text := by
  simp [textRequests, List.mem_filter]

theorem imageRequests_sublist (batch : List (BatchRequest α)) :
    List.Sublist (imageRequests batch) batch := List.filter_sublist _

theorem textRequests_sublist (batch : List (BatchRequest α)) :
    List.Sublist (textRequests batch) batch := List.filter_sublist _

theorem mem_kind_partition {batch : List (BatchRequest α)} {r : BatchRequest α}
    (hr : r ∈ batch) : r ∈ imageRequests batch ∨ r ∈ textRequests batch := by
  cases hk : r.request_type with
  | image => exact Or.inl (mem_imageRequests.mpr ⟨hr, hk⟩)
  | text => exact Or.inr (mem_textRequests.mpr ⟨hr, hk⟩)

theorem countP_rid_eq_one {batch : List (BatchRequest α)} {r : BatchRequest α}
    (hN : (batch.map (·.rid)).Nodup) (hr : r ∈ batch) :
    batch.countP (fun x => x.rid == r.rid) = 1 := by
  have h1 : (batch.map (·.rid)).count r.rid = 1 :=
    List.count_eq_one_of_mem hN (List.mem_map_of_mem _ hr)
  rw [List.count_eq_countP, List.countP_map] at h1
  exact h1

theorem countP_rid_sub_of_mem {batch l : List (BatchRequest α)} {r : BatchRequest α}
    (hN : (batch.map (·.rid)).Nodup) (hr : r ∈ batch) (hl : List.Sublist l batch)
    (hrl : r ∈ l) :
    l.countP (fun x => x.rid == r.rid) = 1 := by
  refine le_antisymm ?_ ?_
  · rw [← countP_rid_eq_one hN hr]
    exact hl.countP_le _
  · exact List.countP_pos_iff.mpr ⟨r, hrl, by simp⟩

theorem countP_rid_sub_of_not_mem {batch l : List (BatchRequest α)} {r : BatchRequest α}
    (hN : (batch.map (·.rid)).Nodup) (hr : r ∈ batch) (hl : List.Sublist l batch)
    (hrl : r ∉ l) :
    l.countP (fun x => x.rid == r.rid) = 0 := by
  by_contra hne
  obtain ⟨x, hxl, hx⟩ := List.countP_pos_iff.mp (Nat.pos_of_ne_zero hne)
  have hxr : x.rid = r.rid := by simpa using hx
  have hxe : x = r := List.inj_on_of_nodup_map hN (hl.subset hxl) hr hxr
  exact hrl (hxe ▸ hxl)

theorem msgsFor_append (rid : Nat) (a b : List (Nat × ResultMsg β)) :
    msgsFor rid (a ++ b) = msgsFor rid a ++ msgsFor rid b := by
  simp [msgsFor, List.filter_append]

theorem length_msgsFor (rid : Nat) (l : List (Nat × ResultMsg β)) :
    (msgsFor rid l).length = l.countP (fun p => p.1 == rid) := by
  simp [msgsFor, List.countP_eq_length_filter]

theorem msgsFor_map {γ : Type} (f : γ → Nat × ResultMsg β) (rid : Nat) (l : List γ) :
    msgsFor rid (l.map f) = (l.filter fun x => (f x).1 == rid).map (fun x => (f x).2) := by
  induction l with
  | nil => rfl
  | cons a l ih =>
    by_cases h : (f a).1 == rid
    · simp only [List.map_cons, msgsFor, List.filter_cons] at *
      simp [h, ih]
    · simp only [List.map_cons, msgsFor, List.filter_cons] at *
      simp [h, ih]

theorem msgsFor_failure_broadcast {batch : List (BatchRequest α)} {r : BatchRequest α}
    (hN : (batch.map (·.rid)).Nodup) (hr : r ∈ batch) (e : String) :
    msgsFor r.rid (batch.map fun x => (x.rid, (ResultMsg.failure e : ResultMsg β))) =
      [ResultMsg.failure e] := by
  rw [msgsFor_map]
  have hlen : (batch.filter fun x => x.rid == r.rid).length = 1 := by
    rw [← List.countP_eq_length_filter]
    exact countP_rid_eq_one hN hr
  obtain ⟨x, hx⟩ := List.length_eq_one.mp hlen
  simp only []
  rw [hx]
  rfl

theorem countP_zip_fst {γ : Type} (q : BatchRequest α → Bool)
    (part : List (BatchRequest α)) (embs : List γ) (h : part.length ≤ embs.length) :
    (part.zip embs).countP (fun p => q p.1) = part.countP q := by
  conv_rhs => rw [← List.map_fst_zip part embs h]
  rw [List.countP_map]
  rfl

theorem msgsFor_zip_of_not_mem {batch part : List (BatchRequest α)} {r : BatchRequest α}
    {embs : List β}
    (hN : (batch.map (·.rid)).Nodup) (hr : r ∈ batch) (hl : List.Sublist part batch)
    (hlen : part.length ≤ embs.length) (hrp : r ∉ part) :
    msgsFor r.rid ((part.zip embs).map fun p => (p.1.rid, ResultMsg.success p.2)) = [] := by
  rw [msgsFor_map]
  have hcount : ((part.zip embs).filter fun x => x.1.rid == r.rid).length = 0 := by
    rw [← List.countP_eq_length_filter]
    have h2 := countP_zip_fst (fun x => x.rid == r.rid) part embs hlen
    rw [h2, countP_rid_sub_of_not_mem hN hr hl hrp]
  simp only []
  rw [List.length_eq_zero.mp hcount]
  rfl

theorem msgsFor_zip_of_mem {batch part : List (BatchRequest α)} {r : BatchRequest α}
    {embs : List β}
    (hN : (batch.map (·.rid)).Nodup) (hr : r ∈ batch) (hl : List.Sublist part batch)
    (hlen : part.length ≤ embs.length) (hrp : r ∈ part) :
    ∃ v, (r, v) ∈ part.zip embs ∧
      msgsFor r.rid ((part.zip embs).map fun p => (p.1.rid, ResultMsg.success p.2)) =
        [ResultMsg.success v] := by
  have hcount : ((part.zip embs).filter fun x => x.1.rid == r.rid).length = 1 := by
    rw [← List.countP_eq_length_filter]
    have h2 := countP_zip_fst (fun x => x.rid == r.rid) part embs hlen
    rw [h2, countP_rid_sub_of_mem hN hr hl hrp]
  obtain ⟨x, hx⟩ := List.length_eq_one.mp hcount
  have hxmem : x ∈ (part.zip embs).filter fun x => x.1.rid == r.rid := by
    rw [hx]; exact List.mem_singleton_self x
  obtain ⟨hxzip, hxr⟩ := List.mem_filter.mp hxmem
  obtain ⟨x1, x2⟩ := x
  have hx1 : x1 ∈ part := (List.of_mem_zip hxzip).1
  have hx1r : x1 = r := by
    refine List.inj_on_of_nodup_map hN (hl.subset hx1) hr ?_
    simpa using hxr
  refine ⟨x2, by rw [← hx1r]; exact hxzip, ?_⟩
  rw [msgsFor_map]
  simp only []
  rw [hx]
  rfl

end ClipServer

namespace ClipServer

variable {α β : Type}

theorem processBatchRun_empty {eI eT : List α → Except String (List β)}
    {batch : List (BatchRequest α)}
    (hi : imageRequests batch = []) (ht : textRequests batch = []) :
    processBatchRun eI eT batch = ([], []) := by
  simp [processBatchRun, hi, ht]

theorem processBatchRun_text_only_err {eI eT : List α → Except String (List β)}
    {batch : List (BatchRequest α)} {e : String}
    (hi : imageRequests batch = []) (ht : textRequests batch ≠ [])
    (he : eT ((textRequests batch).map (·.data)) = .error e) :
    processBatchRun eI eT batch =
      ([(RKind.text, (textRequests batch).map (·.data))],
       batch.map fun r => (r.rid, ResultMsg.failure e)) := by
  have h2 : (textRequests batch).isEmpty = false := by simp [List.isEmpty_iff, ht]
  simp [processBatchRun, hi, h2, he]

theorem processBatchRun_text_only_ok {eI eT : List α → Except String (List β)}
    {batch : List (BatchRequest α)} {embsT : List β}
    (hi : imageRequests batch = []) (ht : textRequests batch ≠ [])
    (he : eT ((textRequests batch).map (·.data)) = .ok embsT) :
    processBatchRun eI eT batch =
      ([(RKind.text, (textRequests batch).map (·.data))],
       ((textRequests batch).zip embsT).map fun p => (p.1.rid, ResultMsg.success p.2)) := by
  have h2 : (textRequests batch).isEmpty = false := by simp [List.isEmpty_iff, ht]
  simp [processBatchRun, hi, h2, he]

theorem processBatchRun_img_err {eI eT : List α → Except String (List β)}
    {batch : List (BatchRequest α)} {e : String}
    (hi : imageRequests batch ≠ [])
    (he : eI ((imageRequests batch).map (·.data)) = .error e) :
    processBatchRun eI eT batch =
      ([(RKind.image, (imageRequests batch).map (·.data))],
       batch.map fun r => (r.rid, ResultMsg.failure e)) := by
  have h1 : (imageRequests batch).isEmpty = false := by simp [List.isEmpty_iff, hi]
  simp [processBatchRun, h1, he]

theorem processBatchRun_img_ok_no_text {eI eT : List α → Except String (List β)}
    {batch : List (BatchRequest α)} {embsI : List β}
    (hi : imageRequests batch ≠ []) (ht : textRequests batch = [])
    (he : eI ((imageRequests batch).map (·.data)) = .ok embsI) :
    processBatchRun eI eT batch =
      ([(RKind.image, (imageRequests batch).map (·.data))],
       ((imageRequests batch).zip embsI).map fun p => (p.1.rid, ResultMsg.success p.2)) := by
  have h1 : (imageRequests batch).isEmpty = false := by simp [List.isEmpty_iff, hi]
  simp [processBatchRun, h1, he, ht]

theorem processBatchRun_img_ok_text_err {eI eT : List α → Except String (List β)}
    {batch : List (BatchRequest α)} {embsI : List β} {e : String}
    (hi : imageRequests batch ≠ []) (ht : textRequests batch ≠ [])
    (heI : eI ((imageRequests batch).map (·.data)) = .ok embsI)
    (heT : eT ((textRequests batch).map (·.data)) = .error e) :
    processBatchRun eI eT batch =
      ([(RKind.image, (imageRequests batch).map (·.data)),
        (RKind.text, (textRequests batch).map (·.data))],
       (((imageRequests batch).zip embsI).map fun p => (p.1.rid, ResultMsg.success p.2))
         ++ batch.map fun r => (r.rid, ResultMsg.failure e)) := by
  have h1 : (imageRequests batch).isEmpty = false := by simp [List.isEmpty_iff, hi]
  have h2 : (textRequests batch).isEmpty = false := by simp [List.isEmpty_iff, ht]
  simp [processBatchRun, h1, h2, heI, heT]

theorem processBatchRun_img_ok_text_ok {eI eT : List α → Except String (List β)}
    {batch : List (BatchRequest α)} {embsI embsT : List β}
    (hi : imageRequests batch ≠ []) (ht : textRequests batch ≠ [])
    (heI : eI ((imageRequests batch).map (·.data)) = .ok embsI)
    (heT : eT ((textRequests batch).map (·.data)) = .ok embsT) :
    processBatchRun eI eT batch =
      ([(RKind.image, (imageRequests batch).map (·.data)),
        (RKind.text, (textRequests batch).map (·.data))],
       (((imageRequests batch).zip embsI).map fun p => (p.1.rid, ResultMsg.success p.2))
         ++ ((textRequests batch).zip embsT).map fun p => (p.1.rid, ResultMsg.success p.2)) := by
  have h1 : (imageRequests batch).isEmpty = false := by simp [List.isEmpty_iff, hi]
  have h2 : (textRequests batch).isEmpty = false := by simp [List.isEmpty_iff, ht]
  simp [processBatchRun, h1, h2, heI, heT]

end ClipServer

namespace ClipServer

variable {α β : Type}

/-- Concrete embedding function for the examples below: always succeeds,
mapping each input `n` to the vector `n + 1`. -/
def okInc : List Nat → Except String (List Nat) := fun l => .ok (l.map (· + 1))

/-- Concrete embedding function for the examples below: always raises, with
error description `"boom"`. -/
def failBoom : List Nat → Except String (List Nat) := fun _ => .error "boom"

/-- A concrete image request on response queue 1. -/
def reqImg1 : BatchRequest Nat := ⟨10, 1, RKind.image⟩

/-- A concrete text request on response queue 2. -/
def reqTxt2 : BatchRequest Nat := ⟨20, 2, RKind.text⟩

/-- A concrete image request on response queue 3. -/
def reqImg3 : BatchRequest Nat := ⟨30, 3, RKind.image⟩

/-- A concrete text request on response queue 4. -/
def reqTxt4 : BatchRequest Nat := ⟨40, 4, RKind.text⟩

theorem okInc_aligned : returnsAligned okInc := by
  intro xs ys h
  simp only [okInc, Except.ok.injEq] at h
  subst h
  simp

theorem failBoom_aligned : returnsAligned failBoom := by
  intro xs ys h
  simp [failBoom] at h

end ClipServer

namespace ClipServer

variable {α β : Type}

/-- C3: if any exception is raised while the dispatcher processes a batch
(either partition's embedding call raising; result delivery itself, an
`asyncio.Queue.put` on an unbounded queue, cannot raise), then a `Failure`
carrying that same error description is put on the completion channel of every
request in the entire batch — the broadcast is the final block of queue writes,
so it also reaches requests of the non-failing kind and requests whose
`Success` was already delivered earlier in the same dispatch. -/
theorem exception_broadcasts_failure_to_whole_batch
    {eI eT : List α → Except String (List β)} {batch : List (BatchRequest α)} {e : String}
    (h : (imageRequests batch ≠ [] ∧ eI ((imageRequests batch).map (·.data)) = .error e) ∨
         ((imageRequests batch = [] ∨ ∃ vs, eI ((imageRequests batch).map (·.data)) = .ok vs) ∧
          textRequests batch ≠ [] ∧ eT ((textRequests batch).map (·.data)) = .error e)) :
    List.IsSuffix (batch.map fun r => (r.rid, (ResultMsg.failure e : ResultMsg β)))
        (processBatch eI eT batch) ∧
      ∀ r ∈ batch, (r.rid, (ResultMsg.failure e : ResultMsg β)) ∈ processBatch eI eT batch := by
  have hsuf : List.IsSuffix (batch.map fun r => (r.rid, (ResultMsg.failure e : ResultMsg β)))
      (processBatch eI eT batch) := by
    rcases h with ⟨hi, he⟩ | ⟨hok, ht, he⟩
    · rw [processBatch, processBatchRun_img_err hi he]
    · by_cases hi2 : imageRequests batch = []
      · rw [processBatch, processBatchRun_text_only_err hi2 ht he]
      · rcases hok with hi | ⟨vs, heI⟩
        · exact absurd hi hi2
        · rw [processBatch, processBatchRun_img_ok_text_err hi2 ht heI he]
          exact List.suffix_append _ _
  exact ⟨hsuf, fun r hr => hsuf.subset (List.mem_map_of_mem _ hr)⟩

/-- C3 applied: the image call raises on the mixed batch `[reqImg1, reqTxt2]`,
and the failure broadcast to the whole batch is the entire list of writes. -/
theorem exception_broadcasts_failure_to_whole_batch_applied :
    List.IsSuffix ([reqImg1, reqTxt2].map fun r => (r.rid, (ResultMsg.failure "boom" : ResultMsg Nat)))
        (processBatch failBoom okInc [reqImg1, reqTxt2]) ∧
      ∀ r ∈ [reqImg1, reqTxt2],
        (r.rid, (ResultMsg.failure "boom" : ResultMsg Nat)) ∈
          processBatch failBoom okInc [reqImg1, reqTxt2] :=
  exception_broadcasts_failure_to_whole_batch (Or.inl ⟨by decide, rfl⟩)

/-- C4: a kind-partition whose embedding call raises delivers to every request
of that partition exactly the one message `Failure e`, `e` being that error's
description — no partial success within the partition, no retry.  The image
case is unconditional; the text case assumes the dispatch reached the text
call, i.e. the image step did not itself raise. -/
theorem partition_failure_delivers_failure_to_partition
    {eI eT : List α → Except String (List β)} {batch : List (BatchRequest α)}
    {e : String} (r : BatchRequest α)
    (hN : (batch.map (·.rid)).Nodup)
    (hI : returnsAligned eI)
    (h : (r ∈ imageRequests batch ∧ eI ((imageRequests batch).map (·.data)) = .error e) ∨
         (r ∈ textRequests batch ∧
          (imageRequests batch = [] ∨ ∃ vs, eI ((imageRequests batch).map (·.data)) = .ok vs) ∧
          eT ((textRequests batch).map (·.data)) = .error e)) :
    msgsFor r.rid (processBatch eI eT batch) = [ResultMsg.failure e] := by
  rcases h with ⟨hrI, he⟩ | ⟨hrT, hok, he⟩
  · have hi : imageRequests batch ≠ [] := List.ne_nil_of_mem hrI
    rw [processBatch, processBatchRun_img_err hi he]
    exact msgsFor_failure_broadcast hN (mem_imageRequests.mp hrI).1 e
  · have ht : textRequests batch ≠ [] := List.ne_nil_of_mem hrT
    have hrb : r ∈ batch := (mem_textRequests.mp hrT).1
    by_cases hi2 : imageRequests batch = []
    · rw [processBatch, processBatchRun_text_only_err hi2 ht he]
      exact msgsFor_failure_broadcast hN hrb e
    · rcases hok with hi | ⟨vs, heI⟩
      · exact absurd hi hi2
      · rw [processBatch, processBatchRun_img_ok_text_err hi2 ht heI he, msgsFor_append]
        have hlen : (imageRequests batch).length ≤ vs.length := by
          rw [hI _ _ heI, List.length_map]
        have hnotin : r ∉ imageRequests batch := by
          intro hmem
          have h1 := (mem_imageRequests.mp hmem).2
          have h2 := (mem_textRequests.mp hrT).2
          rw [h1] at h2
          exact RKind.noConfusion h2
        rw [msgsFor_zip_of_not_mem hN hrb (imageRequests_sublist batch) hlen hnotin,
          msgsFor_failure_broadcast hN hrb e]
        rfl

/-- C4 applied, the claim's concrete scenario: a batch of two text requests
whose embedding call raises; both receive exactly `Failure "boom"`. -/
theorem partition_failure_delivers_failure_to_partition_applied :
    msgsFor 2 (processBatch okInc failBoom [reqTxt2, reqTxt4]) =
        [ResultMsg.failure "boom"] ∧
      msgsFor 4 (processBatch okInc failBoom [reqTxt2, reqTxt4]) =
        [ResultMsg.failure "boom"] :=
  ⟨partition_failure_delivers_failure_to_partition reqTxt2 (by decide) okInc_aligned
      (Or.inr ⟨by decide, Or.inl (by decide), rfl⟩),
    partition_failure_delivers_failure_to_partition reqTxt4 (by decide) okInc_aligned
      (Or.inr ⟨by decide, Or.inl (by decide), rfl⟩)⟩

end ClipServer

namespace ClipServer

variable {α β : Type}

/-- C1 counterexample: in the batch `[reqImg1, reqTxt2]` the image partition's
embedding call raises (`failBoom`) while the text partition's call (`okInc`)
would have succeeded (`okInc [20] = .ok [21]`); yet the text request's
completion channel receives only `Failure "boom"` and no `Success` — the
failure of one kind-partition does affect delivery to the other. -/
theorem partition_independence_cex :
    okInc [20] = .ok [21] ∧
      msgsFor 2 (processBatch failBoom okInc [reqImg1, reqTxt2]) =
        [ResultMsg.failure "boom"] ∧
      (ResultMsg.success 21 : ResultMsg Nat) ∉
        msgsFor 2 (processBatch failBoom okInc [reqImg1, reqTxt2]) :=
  ⟨rfl, by decide, by decide⟩

/-- C1 amended: partition independence fails in the image-fails direction and
holds only partially in the text-fails direction.  (1) If the image partition's
call raises, the queue writes of the dispatch are exactly a `Failure` broadcast
to the entire batch — the text partition receives `Failure` instead of its
normal `Success`.  (2) If the image call succeeds and the text call then
raises, each image request's channel holds its normal `Success` as first
message, followed by a spurious batch-wide `Failure`. -/
theorem partition_failure_crosses_partitions
    (eI eT : List α → Except String (List β)) (batch : List (BatchRequest α))
    (hN : (batch.map (·.rid)).Nodup) (hI : returnsAligned eI) :
    (∀ e : String, imageRequests batch ≠ [] →
      eI ((imageRequests batch).map (·.data)) = .error e →
      processBatch eI eT batch = batch.map fun r => (r.rid, ResultMsg.failure e)) ∧
    (∀ (e : String) (vs : List β), eI ((imageRequests batch).map (·.data)) = .ok vs →
      textRequests batch ≠ [] →
      eT ((textRequests batch).map (·.data)) = .error e →
      ∀ r ∈ imageRequests batch,
        ∃ v, msgsFor r.rid (processBatch eI eT batch) =
          [ResultMsg.success v, ResultMsg.failure e]) := by
  constructor
  · intro e hi he
    rw [processBatch, processBatchRun_img_err hi he]
  · intro e vs heI ht heT r hrI
    have hi : imageRequests batch ≠ [] := List.ne_nil_of_mem hrI
    have hrb : r ∈ batch := (mem_imageRequests.mp hrI).1
    have hlen : (imageRequests batch).length ≤ vs.length := by
      rw [hI _ _ heI, List.length_map]
    rw [processBatch, processBatchRun_img_ok_text_err hi ht heI heT, msgsFor_append]
    obtain ⟨v, _, hmsg⟩ :=
      msgsFor_zip_of_mem hN hrb (imageRequests_sublist batch) hlen hrI
    refine ⟨v, ?_⟩
    rw [hmsg, msgsFor_failure_broadcast hN hrb e]
    rfl

/-- C1 amended, applied: image call succeeds and text call raises on
`[reqImg1, reqTxt2]`; the image request's channel holds its `Success` first. -/
theorem partition_failure_crosses_partitions_applied :
    ∃ v, msgsFor 1 (processBatch okInc failBoom [reqImg1, reqTxt2]) =
      [ResultMsg.success v, ResultMsg.failure "boom"] :=
  (partition_failure_crosses_partitions okInc failBoom [reqImg1, reqTxt2]
      (by decide) okInc_aligned).2
    "boom" [11] rfl (by decide) rfl reqImg1 (by decide)

/-- C2 counterexample: in the batch `[reqImg1, reqTxt2]` with a succeeding
image call and a raising text call, the image request's completion channel is
written twice (`Success` then `Failure`), not exactly once. -/
theorem exactly_once_delivery_cex :
    (msgsFor 1 (processBatch okInc failBoom [reqImg1, reqTxt2])).length = 2 ∧
      ¬ (msgsFor 1 (processBatch okInc failBoom [reqImg1, reqTxt2])).length = 1 := by
  decide

end ClipServer

namespace ClipServer

variable {α β : Type}

theorem kind_ne_image_of_mem_text {batch : List (BatchRequest α)} {r : BatchRequest α}
    (h : r ∈ textRequests batch) : ¬ r.request_type = RKind.image := by
  intro hk
  have h3 := (mem_textRequests.mp h).2
  rw [hk] at h3
  exact RKind.noConfusion h3

theorem not_mem_image_of_mem_text {batch : List (BatchRequest α)} {r : BatchRequest α}
    (h : r ∈ textRequests batch) : r ∉ imageRequests batch :=
  fun h2 => kind_ne_image_of_mem_text h (mem_imageRequests.mp h2).2

theorem not_mem_text_of_mem_image {batch : List (BatchRequest α)} {r : BatchRequest α}
    (h : r ∈ imageRequests batch) : r ∉ textRequests batch := by
  intro h2
  exact kind_ne_image_of_mem_text h2 (mem_imageRequests.mp h).2

/-- C2 amended: every request admitted into a dispatched batch has its
completion channel written at least once and at most twice, even when an
embedding call raises; the write is exactly one message except in precisely one
situation — the request is an image request, the image call succeeded, and the
co-batched text partition's call then raised — in which case the channel is
written twice (`Success` then the batch-wide `Failure`). -/
theorem delivery_count_bounds
    (eI eT : List α → Except String (List β)) (batch : List (BatchRequest α))
    (r : BatchRequest α)
    (hN : (batch.map (·.rid)).Nodup) (hI : returnsAligned eI) (hT : returnsAligned eT)
    (hr : r ∈ batch) :
    1 ≤ (msgsFor r.rid (processBatch eI eT batch)).length ∧
    (msgsFor r.rid (processBatch eI eT batch)).length ≤ 2 ∧
    ((msgsFor r.rid (processBatch eI eT batch)).length = 2 ↔
      (r.request_type = RKind.image ∧ textRequests batch ≠ [] ∧
       (∃ vs, eI ((imageRequests batch).map (·.data)) = .ok vs) ∧
       (∃ e, eT ((textRequests batch).map (·.data)) = .error e))) := by
  by_cases hi : imageRequests batch = []
  · have hrT : r ∈ textRequests batch := by
      rcases mem_kind_partition hr with h | h
      · rw [hi] at h; cases h
      · exact h
    have ht : textRequests batch ≠ [] := List.ne_nil_of_mem hrT
    cases heT : eT ((textRequests batch).map (·.data)) with
    | error e =>
      have hc : msgsFor r.rid (processBatch eI eT batch) = [ResultMsg.failure e] := by
        rw [processBatch, processBatchRun_text_only_err hi ht heT]
        exact msgsFor_failure_broadcast hN hr e
      rw [hc]
      refine ⟨by simp, by simp, ?_⟩
      constructor
      · intro h; exact absurd h (by simp)
      · rintro ⟨hk, -, -, -⟩
        exact absurd hk (kind_ne_image_of_mem_text hrT)
    | ok embsT =>
      have hlenT : (textRequests batch).length ≤ embsT.length := by
        rw [hT _ _ heT, List.length_map]
      obtain ⟨v, -, hc0⟩ :=
        msgsFor_zip_of_mem hN hr (textRequests_sublist batch) hlenT hrT
      have hc : msgsFor r.rid (processBatch eI eT batch) = [ResultMsg.success v] := by
        rw [processBatch, processBatchRun_text_only_ok hi ht heT]
        exact hc0
      rw [hc]
      refine ⟨by simp, by simp, ?_⟩
      constructor
      · intro h; exact absurd h (by simp)
      · rintro ⟨hk, -, -, -⟩
        exact absurd hk (kind_ne_image_of_mem_text hrT)
  · cases heI : eI ((imageRequests batch).map (·.data)) with
    | error e =>
      have hc : msgsFor r.rid (processBatch eI eT batch) = [ResultMsg.failure e] := by
        rw [processBatch, processBatchRun_img_err hi heI]
        exact msgsFor_failure_broadcast hN hr e
      rw [hc]
      refine ⟨by simp, by simp, ?_⟩
      constructor
      · intro h; exact absurd h (by simp)
      · rintro ⟨-, -, ⟨vs, hvs⟩, -⟩
        exact Except.noConfusion hvs
    | ok embsI =>
      have hlenI : (imageRequests batch).length ≤ embsI.length := by
        rw [hI _ _ heI, List.length_map]
      by_cases ht : textRequests batch = []
      · have hrI : r ∈ imageRequests batch := by
          rcases mem_kind_partition hr with h | h
          · exact h
          · rw [ht] at h; cases h
        obtain ⟨v, -, hc0⟩ :=
          msgsFor_zip_of_mem hN hr (imageRequests_sublist batch) hlenI hrI
        have hc : msgsFor r.rid (processBatch eI eT batch) = [ResultMsg.success v] := by
          rw [processBatch, processBatchRun_img_ok_no_text hi ht heI]
          exact hc0
        rw [hc]
        refine ⟨by simp, by simp, ?_⟩
        constructor
        · intro h; exact absurd h (by simp)
        · rintro ⟨-, htne, -, -⟩
          exact absurd ht htne
      · cases heT : eT ((textRequests batch).map (·.data)) with
        | error e =>
          rcases mem_kind_partition hr with hrI | hrT
          · obtain ⟨v, -, hc0⟩ :=
              msgsFor_zip_of_mem hN hr (imageRequests_sublist batch) hlenI hrI
            have hc : msgsFor r.rid (processBatch eI eT batch) =
                [ResultMsg.success v, ResultMsg.failure e] := by
              rw [processBatch, processBatchRun_img_ok_text_err hi ht heI heT, msgsFor_append,
                hc0, msgsFor_failure_broadcast hN hr e]
              rfl
            rw [hc]
            refine ⟨by simp, by simp, ?_⟩
            constructor
            · intro _
              exact ⟨(mem_imageRequests.mp hrI).2, ht, ⟨embsI, rfl⟩, ⟨e, rfl⟩⟩
            · intro _; rfl
          · have hc : msgsFor r.rid (processBatch eI eT batch) = [ResultMsg.failure e] := by
              rw [processBatch, processBatchRun_img_ok_text_err hi ht heI heT, msgsFor_append,
                msgsFor_zip_of_not_mem hN hr (imageRequests_sublist batch) hlenI
                  (not_mem_image_of_mem_text hrT),
                msgsFor_failure_broadcast hN hr e]
              rfl
            rw [hc]
            refine ⟨by simp, by simp, ?_⟩
            constructor
            · intro h; exact absurd h (by simp)
            · rintro ⟨hk, -, -, -⟩
              exact absurd hk (kind_ne_image_of_mem_text hrT)
        | ok embsT =>
          have hlenT : (textRequests batch).length ≤ embsT.length := by
            rw [hT _ _ heT, List.length_map]
          rcases mem_kind_partition hr with hrI | hrT
          · obtain ⟨v, -, hc0⟩ :=
              msgsFor_zip_of_mem hN hr (imageRequests_sublist batch) hlenI hrI
            have hc : msgsFor r.rid (processBatch eI eT batch) = [ResultMsg.success v] := by
              rw [processBatch, processBatchRun_img_ok_text_ok hi ht heI heT, msgsFor_append,
                hc0,
                msgsFor_zip_of_not_mem hN hr (textRequests_sublist batch) hlenT
                  (not_mem_text_of_mem_image hrI)]
              rfl
            rw [hc]
            refine ⟨by simp, by simp, ?_⟩
            constructor
            · intro h; exact absurd h (by simp)
            · rintro ⟨-, -, -, ⟨e, hvs⟩⟩
              exact Except.noConfusion hvs
          · obtain ⟨v, -, hc0⟩ :=
              msgsFor_zip_of_mem hN hr (textRequests_sublist batch) hlenT hrT
            have hc : msgsFor r.rid (processBatch eI eT batch) = [ResultMsg.success v] := by
              rw [processBatch, processBatchRun_img_ok_text_ok hi ht heI heT, msgsFor_append,
                msgsFor_zip_of_not_mem hN hr (imageRequests_sublist batch) hlenI
                  (not_mem_image_of_mem_text hrT),
                hc0]
              rfl
            rw [hc]
            refine ⟨by simp, by simp, ?_⟩
            constructor
            · intro h; exact absurd h (by simp)
            · rintro ⟨-, -, -, ⟨e, hvs⟩⟩
              exact Except.noConfusion hvs

/-- C2 amended, applied: the image request of `[reqImg1, reqTxt2]` under a
succeeding image call and raising text call has its channel written at least
once and at most twice. -/
theorem delivery_count_bounds_applied :
    1 ≤ (msgsFor 1 (processBatch okInc failBoom [reqImg1, reqTxt2])).length ∧
      (msgsFor 1 (processBatch okInc failBoom [reqImg1, reqTxt2])).length ≤ 2 :=
  ⟨(delivery_count_bounds okInc failBoom [reqImg1, reqTxt2] reqImg1 (by decide)
      okInc_aligned failBoom_aligned (by decide)).1,
    (delivery_count_bounds okInc failBoom [reqImg1, reqTxt2] reqImg1 (by decide)
      okInc_aligned failBoom_aligned (by decide)).2.1⟩

end ClipServer

namespace ClipServer

variable {α β : Type}

/-- C6: the dispatcher partitions a formed batch into the image sub-sequence
and the text sub-sequence, each an order-preserving sub-sequence of the batch;
it invokes the embedding function once per non-empty partition with that
partition's ordered payloads; and when both calls succeed with index-aligned
vectors, the queue writes are exactly the two partitions' `(request, vector)`
zips, so each request's completion channel holds exactly the `Success` of the
vector zipped against its position in its partition. -/
theorem dispatch_success_zip
    (eI eT : List α → Except String (List β)) (batch : List (BatchRequest α))
    (vsI vsT : List β)
    (hN : (batch.map (·.rid)).Nodup)
    (heI : eI ((imageRequests batch).map (·.data)) = .ok vsI)
    (hlI : vsI.length = (imageRequests batch).length)
    (heT : eT ((textRequests batch).map (·.data)) = .ok vsT)
    (hlT : vsT.length = (textRequests batch).length) :
    List.Sublist (imageRequests batch) batch ∧
    List.Sublist (textRequests batch) batch ∧
    processBatchCalls eI eT batch =
      ((if (imageRequests batch).isEmpty then []
        else [(RKind.image, (imageRequests batch).map (·.data))]) ++
       (if (textRequests batch).isEmpty then []
        else [(RKind.text, (textRequests batch).map (·.data))])) ∧
    processBatch eI eT batch =
      ((((imageRequests batch).zip vsI).map fun p => (p.1.rid, ResultMsg.success p.2)) ++
        ((textRequests batch).zip vsT).map fun p => (p.1.rid, ResultMsg.success p.2)) ∧
    (∀ r ∈ imageRequests batch, ∃ v, (r, v) ∈ (imageRequests batch).zip vsI ∧
      msgsFor r.rid (processBatch eI eT batch) = [ResultMsg.success v]) ∧
    (∀ r ∈ textRequests batch, ∃ v, (r, v) ∈ (textRequests batch).zip vsT ∧
      msgsFor r.rid (processBatch eI eT batch) = [ResultMsg.success v]) := by
  have hputs : processBatch eI eT batch =
      ((((imageRequests batch).zip vsI).map fun p => (p.1.rid, ResultMsg.success p.2)) ++
        ((textRequests batch).zip vsT).map fun p => (p.1.rid, ResultMsg.success p.2)) := by
    by_cases hi : imageRequests batch = []
    · have hvsI : vsI = [] := by
        rw [hi] at hlI
        exact List.length_eq_zero.mp hlI
      by_cases ht : textRequests batch = []
      · have hvsT : vsT = [] := by
          rw [ht] at hlT
          exact List.length_eq_zero.mp hlT
        rw [processBatch, processBatchRun_empty hi ht, hi, ht, hvsI, hvsT]
        rfl
      · rw [processBatch, processBatchRun_text_only_ok hi ht heT, hi, hvsI]
        rfl
    · by_cases ht : textRequests batch = []
      · have hvsT : vsT = [] := by
          rw [ht] at hlT
          exact List.length_eq_zero.mp hlT
        rw [processBatch, processBatchRun_img_ok_no_text hi ht heI, ht, hvsT,
          List.zip_nil_left, List.map_nil, List.append_nil]
      · rw [processBatch, processBatchRun_img_ok_text_ok hi ht heI heT]
  have hcalls : processBatchCalls eI eT batch =
      ((if (imageRequests batch).isEmpty then []
        else [(RKind.image, (imageRequests batch).map (·.data))]) ++
       (if (textRequests batch).isEmpty then []
        else [(RKind.text, (textRequests batch).map (·.data))])) := by
    by_cases hi : imageRequests batch = []
    · by_cases ht : textRequests batch = []
      · rw [processBatchCalls, processBatchRun_empty hi ht]
        simp [hi, ht]
      · rw [processBatchCalls, processBatchRun_text_only_ok hi ht heT]
        simp [hi, List.isEmpty_iff, ht]
    · by_cases ht : textRequests batch = []
      · rw [processBatchCalls, processBatchRun_img_ok_no_text hi ht heI]
        simp [List.isEmpty_iff, hi, ht]
      · rw [processBatchCalls, processBatchRun_img_ok_text_ok hi ht heI heT]
        simp [List.isEmpty_iff, hi, ht]
  refine ⟨imageRequests_sublist batch, textRequests_sublist batch, hcalls, hputs, ?_, ?_⟩
  · intro r hrI
    have hrb : r ∈ batch := (mem_imageRequests.mp hrI).1
    obtain ⟨v, hin, hc0⟩ :=
      msgsFor_zip_of_mem hN hrb (imageRequests_sublist batch)
        (le_of_eq hlI.symm) hrI
    refine ⟨v, hin, ?_⟩
    rw [hputs, msgsFor_append, hc0,
      msgsFor_zip_of_not_mem hN hrb (textRequests_sublist batch) (le_of_eq hlT.symm)
        (not_mem_text_of_mem_image hrI)]
    rfl
  · intro r hrT
    have hrb : r ∈ batch := (mem_textRequests.mp hrT).1
    obtain ⟨v, hin, hc0⟩ :=
      msgsFor_zip_of_mem hN hrb (textRequests_sublist batch)
        (le_of_eq hlT.symm) hrT
    refine ⟨v, hin, ?_⟩
    rw [hputs, msgsFor_append, hc0,
      msgsFor_zip_of_not_mem hN hrb (imageRequests_sublist batch) (le_of_eq hlI.symm)
        (not_mem_image_of_mem_text hrT)]
    rfl

/-- C6 applied: the interleaved batch `[reqImg1, reqTxt2, reqImg3]` under
succeeding calls produces one image call with payloads `[10, 30]` and one text
call with payload `[20]`, and image request 3 receives the vector zipped at its
partition position. -/
theorem dispatch_success_zip_applied :
    processBatchCalls okInc okInc [reqImg1, reqTxt2, reqImg3] =
        [(RKind.image, [10, 30]), (RKind.text, [20])] ∧
      ∃ v, (reqImg3, v) ∈ (imageRequests [reqImg1, reqTxt2, reqImg3]).zip [11, 31] ∧
        msgsFor 3 (processBatch okInc okInc [reqImg1, reqTxt2, reqImg3]) =
          [ResultMsg.success v] :=
  ⟨((dispatch_success_zip okInc okInc [reqImg1, reqTxt2, reqImg3] [11, 31] [21]
        (by decide) rfl (by decide) rfl (by decide)).2.2.1).trans (by decide),
    (dispatch_success_zip okInc okInc [reqImg1, reqTxt2, reqImg3] [11, 31] [21]
        (by decide) rfl (by decide) rfl (by decide)).2.2.2.2.1 reqImg3 (by decide)⟩

end ClipServer

namespace ClipServer

variable {α β : Type}

/-- C8 counterexample: on the batch `[reqImg1, reqTxt2]` the image partition's
call raises, and the dispatcher makes no text call at all even though the text
partition is non-empty — the invocations are exactly the one image call. -/
theorem embedding_call_skipped_cex :
    processBatchCalls failBoom okInc [reqImg1, reqTxt2] = [(RKind.image, [10])] ∧
      textRequests [reqImg1, reqTxt2] ≠ [] ∧
      ¬ (processBatchCalls failBoom okInc [reqImg1, reqTxt2]).countP
          (fun c => decide (c.1 = RKind.text)) = 1 := by
  decide

/-- C8 amended: the dispatcher never invokes an embedding function with zero
inputs; the image function is called exactly once iff the image partition is
non-empty; the text function is called at most once, and exactly once iff the
text partition is non-empty **and** the image step did not raise (the image
partition is empty or its call succeeded) — an image-partition failure aborts
the dispatch before the text call. -/
theorem embedding_call_occurrence
    (eI eT : List α → Except String (List β)) (batch : List (BatchRequest α)) :
    (∀ c ∈ processBatchCalls eI eT batch, c.2 ≠ []) ∧
    ((processBatchCalls eI eT batch).countP (fun c => decide (c.1 = RKind.image)) =
      if (imageRequests batch).isEmpty then 0 else 1) ∧
    ((processBatchCalls eI eT batch).countP (fun c => decide (c.1 = RKind.text)) ≤ 1) ∧
    ((processBatchCalls eI eT batch).countP (fun c => decide (c.1 = RKind.text)) = 1 ↔
      (textRequests batch ≠ [] ∧
       (imageRequests batch = [] ∨
        ∃ vs, eI ((imageRequests batch).map (·.data)) = .ok vs))) := by
  by_cases hi : imageRequests batch = []
  · by_cases ht : textRequests batch = []
    · rw [processBatchCalls, processBatchRun_empty hi ht]
      refine ⟨by simp, by simp [hi], by simp, ?_⟩
      constructor
      · intro h; exact absurd h (by simp)
      · rintro ⟨htne, -⟩; exact absurd ht htne
    · have hpl : (textRequests batch).map (·.data) ≠ [] := by
        simp [List.map_eq_nil_iff, ht]
      cases heT : eT ((textRequests batch).map (·.data)) with
      | error e =>
        rw [processBatchCalls, processBatchRun_text_only_err hi ht heT]
        refine ⟨by simpa using hpl, by simp [hi], by simp [List.countP_cons], ?_⟩
        simp only [List.countP_cons, List.countP_nil]
        constructor
        · intro _; exact ⟨ht, Or.inl hi⟩
        · intro _; simp
      | ok embsT =>
        rw [processBatchCalls, processBatchRun_text_only_ok hi ht heT]
        refine ⟨by simpa using hpl, by simp [hi], by simp [List.countP_cons], ?_⟩
        simp only [List.countP_cons, List.countP_nil]
        constructor
        · intro _; exact ⟨ht, Or.inl hi⟩
        · intro _; simp
  · have hplI : (imageRequests batch).map (·.data) ≠ [] := by
      simp [List.map_eq_nil_iff, hi]
    have hiempty : (imageRequests batch).isEmpty = false := by
      simp [List.isEmpty_iff, hi]
    cases heI : eI ((imageRequests batch).map (·.data)) with
    | error e =>
      rw [processBatchCalls, processBatchRun_img_err hi heI]
      refine ⟨by simpa using hplI, by simp [hiempty, List.countP_cons],
        by simp [List.countP_cons], ?_⟩
      simp only [List.countP_cons, List.countP_nil]
      constructor
      · intro h; exact absurd h (by simp)
      · rintro ⟨-, hok⟩
        rcases hok with h | ⟨vs, hvs⟩
        · exact absurd h hi
        · exact Except.noConfusion hvs
    | ok embsI =>
      by_cases ht : textRequests batch = []
      · rw [processBatchCalls, processBatchRun_img_ok_no_text hi ht heI]
        refine ⟨by simpa using hplI, by simp [hiempty, List.countP_cons],
          by simp [List.countP_cons], ?_⟩
        simp only [List.countP_cons, List.countP_nil]
        constructor
        · intro h; exact absurd h (by simp)
        · rintro ⟨htne, -⟩; exact absurd ht htne
      · have hplT : (textRequests batch).map (·.data) ≠ [] := by
          simp [List.map_eq_nil_iff, ht]
        cases heT : eT ((textRequests batch).map (·.data)) with
        | error e =>
          rw [processBatchCalls, processBatchRun_img_ok_text_err hi ht heI heT]
          refine ⟨?_, by simp [hiempty, List.countP_cons], by simp [List.countP_cons], ?_⟩
          · intro c hc
            simp only [List.mem_cons, List.not_mem_nil, or_false] at hc
            rcases hc with rfl | rfl
            · simpa using hplI
            · simpa using hplT
          · simp only [List.countP_cons, List.countP_nil]
            constructor
            · intro _; exact ⟨ht, Or.inr ⟨embsI, rfl⟩⟩
            · intro _; simp
        | ok embsT =>
          rw [processBatchCalls, processBatchRun_img_ok_text_ok hi ht heI heT]
          refine ⟨?_, by simp [hiempty, List.countP_cons], by simp [List.countP_cons], ?_⟩
          · intro c hc
            simp only [List.mem_cons, List.not_mem_nil, or_false] at hc
            rcases hc with rfl | rfl
            · simpa using hplI
            · simpa using hplT
          · simp only [List.countP_cons, List.countP_nil]
            constructor
            · intro _; exact ⟨ht, Or.inr ⟨embsI, rfl⟩⟩
            · intro _; simp

/-- C8 amended, applied: on the mixed batch `[reqImg1, reqTxt2]` with both
calls succeeding, each embedding function is invoked exactly once. -/
theorem embedding_call_occurrence_applied :
    (processBatchCalls okInc okInc [reqImg1, reqTxt2]).countP
        (fun c => decide (c.1 = RKind.image)) = 1 ∧
      (processBatchCalls okInc okInc [reqImg1, reqTxt2]).countP
        (fun c => decide (c.1 = RKind.text)) = 1 :=
  ⟨((embedding_call_occurrence okInc okInc [reqImg1, reqTxt2]).2.1).trans (by decide),
    (embedding_call_occurrence okInc okInc [reqImg1, reqTxt2]).2.2.2.mpr
      ⟨by decide, Or.inr ⟨[11], rfl⟩⟩⟩

end ClipServer

namespace ClipServer

variable {α β : Type}

theorem takeWhile_all {γ : Type} (p : γ → Bool) (l : List γ) (h : ∀ x ∈ l, p x) :
    l.takeWhile p = l := by
  induction l with
  | nil => rfl
  | cons a l ih =>
    rw [List.takeWhile_cons_of_pos (h a (List.mem_cons_self a l))]
    rw [ih fun x hx => h x (List.mem_cons_of_mem a hx)]

theorem collectLoop_length_le (maxB deadline : Nat) (arr : List (Nat × BatchRequest α)) :
    ∀ (now : Nat) (batch : List (BatchRequest α)), batch.length ≤ maxB →
      (collectLoop maxB deadline now batch arr).length ≤ maxB := by
  induction arr with
  | nil => intro now batch h; exact h
  | cons p rest ih =>
    intro now batch h
    obtain ⟨t, r⟩ := p
    simp only [collectLoop]
    by_cases hg : batch.length < maxB ∧ now < deadline
    · rw [if_pos hg]
      by_cases htd : t < deadline
      · rw [if_pos htd]
        exact ih _ _ (by simpa using hg.1)
      · rw [if_neg htd]; exact h
    · rw [if_neg hg]; exact h

theorem collectLoop_length_ge (maxB deadline : Nat) (arr : List (Nat × BatchRequest α)) :
    ∀ (now : Nat) (batch : List (BatchRequest α)),
      batch.length ≤ (collectLoop maxB deadline now batch arr).length := by
  induction arr with
  | nil => intro now batch; exact Nat.le_refl _
  | cons p rest ih =>
    intro now batch
    obtain ⟨t, r⟩ := p
    simp only [collectLoop]
    by_cases hg : batch.length < maxB ∧ now < deadline
    · rw [if_pos hg]
      by_cases htd : t < deadline
      · rw [if_pos htd]
        calc batch.length ≤ (batch ++ [r]).length := by simp
          _ ≤ _ := ih _ _
      · rw [if_neg htd]
    · rw [if_neg hg]

theorem collectLoop_spec (maxB deadline : Nat) (arr : List (Nat × BatchRequest α)) :
    ∀ (now : Nat) (batch : List (BatchRequest α)), now < deadline →
      collectLoop maxB deadline now batch arr =
        batch ++
          ((arr.takeWhile fun p => decide (p.1 < deadline)).take (maxB - batch.length)).map
            Prod.snd := by
  induction arr with
  | nil => intro now batch hnow; simp [collectLoop]
  | cons p rest ih =>
    intro now batch hnow
    obtain ⟨t, r⟩ := p
    simp only [collectLoop]
    by_cases hlen : batch.length < maxB
    · rw [if_pos ⟨hlen, hnow⟩]
      by_cases htd : t < deadline
      · rw [if_pos htd]
        rw [ih (max now t) (batch ++ [r]) (max_lt hnow htd)]
        rw [List.takeWhile_cons_of_pos (by simpa using htd)]
        have hsub : maxB - batch.length = (maxB - (batch.length + 1)) + 1 := by omega
        rw [hsub, List.take_succ_cons, List.map_cons]
        simp [List.append_assoc]
      · rw [if_neg htd]
        rw [List.takeWhile_cons_of_neg (by simpa using htd)]
        simp
    · rw [if_neg fun hand => hlen hand.1]
      have h0 : maxB - batch.length = 0 := by omega
      rw [h0]
      simp

theorem formBatch_timeout_zero (maxB t0 : Nat) (r0 : BatchRequest α)
    (arrivals : List (Nat × BatchRequest α)) :
    formBatch maxB 0 t0 r0 arrivals = [r0] := by
  cases arrivals with
  | nil => rfl
  | cons p rest =>
    obtain ⟨t, r⟩ := p
    simp [formBatch, collectLoop]

end ClipServer

namespace ClipServer

variable {α β : Type}

/-- C5 counterexample: (i) with `max_batch_size = 0` the formation cycle still
produces the batch `[first_request]` of length 1, violating
`len(batch) ≤ max_batch_size`; (ii) with `batch_timeout = 0` and a request
already queued since time 0 — before the deadline `5 + 0` — the loop exits with
the batch `[first_request]` even though it neither reached `max_batch_size = 2`
nor saw the queue stay empty up to the deadline. -/
theorem formBatch_bounds_cex :
    ¬ (formBatch 0 5 0 reqImg1 ([] : List (Nat × BatchRequest Nat))).length ≤ 0 ∧
      formBatch 2 0 5 reqImg1 [(0, reqTxt2)] = [reqImg1] ∧ (0 : Nat) < 5 + 0 := by
  decide

/-- C5 amended: provided `max_batch_size ≥ 1`, every batch produced by one
formation cycle satisfies `1 ≤ len(batch) ≤ max_batch_size`; provided
additionally `batch_timeout > 0`, the collecting loop exits exactly at size
`max_batch_size` or at the timeout: the batch is precisely the first request
followed by the first up-to-`max_batch_size − 1` arrivals occurring strictly
before the fixed deadline `t0 + batch_timeout`, which later arrivals never
extend; with `batch_timeout = 0` the batch is just the first request. -/
theorem formBatch_length_and_exit
    (maxB timeout t0 : Nat) (r0 : BatchRequest α)
    (arrivals : List (Nat × BatchRequest α)) (hB : 1 ≤ maxB) :
    1 ≤ (formBatch maxB timeout t0 r0 arrivals).length ∧
    (formBatch maxB timeout t0 r0 arrivals).length ≤ maxB ∧
    (0 < timeout →
      formBatch maxB timeout t0 r0 arrivals =
        r0 :: ((arrivals.takeWhile fun p => decide (p.1 < t0 + timeout)).take
          (maxB - 1)).map Prod.snd) ∧
    (timeout = 0 → formBatch maxB timeout t0 r0 arrivals = [r0]) := by
  refine ⟨?_, ?_, ?_, ?_⟩
  · simpa using collectLoop_length_ge maxB (t0 + timeout) arrivals t0 [r0]
  · exact collectLoop_length_le maxB (t0 + timeout) arrivals t0 [r0] (by simpa using hB)
  · intro htm
    have hnow : t0 < t0 + timeout := by omega
    rw [formBatch, collectLoop_spec maxB (t0 + timeout) arrivals t0 [r0] hnow]
    simp
  · intro h0
    subst h0
    exact formBatch_timeout_zero maxB t0 r0 arrivals

/-- C5 amended, applied: `max_batch_size = 3`, `batch_timeout = 10`, first
request at time 0, arrivals at times 2, 4 and 20: the formed batch is the first
request plus exactly the arrivals strictly before the deadline 10, in order. -/
theorem formBatch_length_and_exit_applied :
    formBatch 3 10 0 reqImg1 [(2, reqTxt2), (4, reqImg3), (20, reqTxt4)] =
      [reqImg1, reqTxt2, reqImg3] :=
  ((formBatch_length_and_exit 3 10 0 reqImg1 [(2, reqTxt2), (4, reqImg3), (20, reqTxt4)]
      (by decide)).2.2.1 (by decide)).trans (by decide)

/-- C7 counterexample: `max_batch_size = 2`, one request already queued at the
moment the first request is taken (arrival time 0 = first-request time), but
`batch_timeout = 0`: the formed batch is `[first_request]` of length 1, not 2. -/
theorem formBatch_full_when_queued_cex :
    formBatch 2 0 0 reqImg1 [(0, reqTxt2)] = [reqImg1] ∧
      ¬ (formBatch 2 0 0 reqImg1 [(0, reqTxt2)]).length = 2 := by
  decide

/-- C7 amended: provided `max_batch_size ≥ 1` and `batch_timeout > 0`, if at
the moment the BatchFormer takes its first request at least
`max_batch_size − 1` further requests are already queued (arrival times at most
the first-request time `t0`), the formed batch has length exactly
`max_batch_size`, not less. -/
theorem formBatch_full_when_queued
    (maxB timeout t0 : Nat) (r0 : BatchRequest α)
    (arrivals : List (Nat × BatchRequest α))
    (hB : 1 ≤ maxB) (htm : 0 < timeout)
    (hq : ∀ p ∈ arrivals, p.1 ≤ t0) (hlen : maxB - 1 ≤ arrivals.length) :
    (formBatch maxB timeout t0 r0 arrivals).length = maxB := by
  have hnow : t0 < t0 + timeout := by omega
  rw [formBatch, collectLoop_spec maxB (t0 + timeout) arrivals t0 [r0] hnow]
  have htw : (arrivals.takeWhile fun p => decide (p.1 < t0 + timeout)) = arrivals :=
    takeWhile_all _ _ fun x hx => by
      have := hq x hx
      simp
      omega
  rw [htw]
  simp only [List.length_append, List.length_map, List.length_take, List.length_singleton]
  omega

/-- C7 amended, applied: `max_batch_size = 2`, `batch_timeout = 5`, one request
already queued when the first is taken: the formed batch has length exactly 2. -/
theorem formBatch_full_when_queued_applied :
    (formBatch 2 5 0 reqImg1 [(0, reqTxt2)]).length = 2 :=
  formBatch_full_when_queued 2 5 0 reqImg1 [(0, reqTxt2)]
    (by decide) (by decide) (by decide) (by decide)

end ClipServer

namespace ClipServer

variable {α β : Type}

/-- C9: `embed_image_async` / `embed_text_async` enqueue exactly one
`BatchRequest` (with the given kind, payload and fresh response queue) at the
tail of the FIFO request queue, suspend until the response queue is written
(`awaitResult` yields nothing on an unwritten channel), and then return the
embedding when the delivered result is a success and raise an error carrying
the delivered description when it is a failure. -/
theorem submit_enqueue_await (q : List (BatchRequest α)) (k : RKind) (p : α) (rid : Nat) :
    submitRequest q k p rid = q ++ [⟨p, rid, k⟩] ∧
    (submitRequest q k p rid).length = q.length + 1 ∧
    awaitResult ([] : List (ResultMsg β)) = none ∧
    (∀ (v : β) (rest : List (ResultMsg β)),
      awaitResult (ResultMsg.success v :: rest) = some (Except.ok v)) ∧
    (∀ (e : String) (rest : List (ResultMsg β)),
      awaitResult (ResultMsg.failure e :: rest) = some (Except.error e)) :=
  ⟨rfl, by simp [submitRequest], rfl, fun _ _ => rfl, fun _ _ => rfl⟩

/-- C10: the `while True` loop of `_process_batches` continues after a normal
cycle and after any non-cancellation exception (which is only logged), stops on
the cooperative cancellation signal, and therefore processes every cycle of an
event stream containing no cancellation — a stream with a first cancellation is
processed exactly up to it. -/
theorem loop_survives_exceptions :
    (∀ e : String, loopContinues (CycleEvent.failed e : CycleEvent α) = true) ∧
    (∀ b : List (BatchRequest α), loopContinues (CycleEvent.formed b) = true) ∧
    loopContinues (CycleEvent.cancelled : CycleEvent α) = false ∧
    (∀ events : List (CycleEvent α), CycleEvent.cancelled ∉ events →
      processBatchesRun events = events) ∧
    (∀ pre post : List (CycleEvent α), CycleEvent.cancelled ∉ pre →
      processBatchesRun (pre ++ CycleEvent.cancelled :: post) = pre) := by
  have hall : ∀ (l : List (CycleEvent α)), CycleEvent.cancelled ∉ l →
      ∀ x ∈ l, loopContinues x = true := by
    intro l h x hx
    cases x with
    | formed b => rfl
    | failed e => rfl
    | cancelled => exact absurd hx h
  refine ⟨fun _ => rfl, fun _ => rfl, rfl, ?_, ?_⟩
  · intro events h
    exact takeWhile_all _ _ (hall events h)
  · intro pre post h
    unfold processBatchesRun
    rw [List.takeWhile_append, takeWhile_all _ _ (hall pre h), if_pos rfl,
      List.takeWhile_cons_of_neg (by simp [loopContinues])]
    simp

/-- C10 applied: a cycle stream with an exception, a normal batch, then a
cancellation and a further batch is processed exactly up to the cancellation. -/
theorem loop_survives_exceptions_applied :
    processBatchesRun ([CycleEvent.failed "err", CycleEvent.formed [reqImg1]] ++
        CycleEvent.cancelled :: [CycleEvent.formed [reqTxt2]]) =
      [CycleEvent.failed "err", CycleEvent.formed [reqImg1]] :=
  loop_survives_exceptions.2.2.2.2
    [CycleEvent.failed "err", CycleEvent.formed [reqImg1]]
    [CycleEvent.formed [reqTxt2]] (by decide)

end ClipServer
